import Mathlib

/-!
# gitlab-runner-cleaner: a shallow embedding of `cleaner.go`

The program is one sequential procedure that talks to a remote runner API.
The embedding makes the two pieces of state explicit:

* the package-level variable `listOptions` (mutated by `runGroupRunners`);
* the ordered record of API calls issued so far, and of logger calls.

The remote API is a black box.  It is modelled as an arbitrary function of the
calls issued so far and of the current request, which covers every behaviour a
sequential client can observe (a history never repeats inside one run).

Loops that the Go code writes as `for { ... }` take a fuel argument counting
loop iterations; the answer `none` means "still inside the loop after that
many iterations".

Go `int` values are embedded as `Int`.  The only arithmetic in the program is
`listOptions.Page++` starting from `-1`, once per list request, so wrap-around
would need `2^63` requests and is not modelled.
-/

namespace Cleaner

/-! ## Data model -/

/-- Go `error` values, identified by their message. -/
abbrev Error := String

/-- The fields of `gitlab.Runner` that the program reads. -/
structure Runner where
  ID : Int
  Name : String
  Description : String
  RunnerType : String
  Online : Bool
  IsShared : Bool
  Status : String
deriving DecidableEq, Repr

/-- The pagination fields of `gitlab.Response` that the program reads. -/
structure Response where
  TotalItems : Int
  TotalPages : Int
deriving DecidableEq, Repr

/-- Go `gitlab.ListOptions`. -/
structure ListOptions where
  Page : Int
  PerPage : Int
deriving DecidableEq, Repr

/-- Go `gitlab.ListRunnersOptions`; `Status = none` is the nil pointer (no filter sent). -/
structure ListRunnersOptions where
  ListOptions : ListOptions
  Status : Option String
deriving DecidableEq, Repr

/-- Go `gitlab.ListGroupsRunnersOptions`. -/
structure ListGroupsRunnersOptions where
  ListOptions : ListOptions
  Status : Option String
deriving DecidableEq, Repr

/-- The triple `(runnerList, resp, err)` returned by a list call.  Any of the
two pointers may be nil (`none`), independently of the others. -/
structure ListResult where
  runners : List Runner
  resp : Option Response
  err : Option Error
deriving DecidableEq, Repr

/-- One call to the remote API. -/
inductive Call where
  | ListRunners (opt : ListRunnersOptions)
  | ListGroupsRunners (groupID : String) (opt : ListGroupsRunnersOptions)
  | DeleteRegisteredRunnerByID (id : Int)
deriving DecidableEq, Repr

/-- The remote API behind `gl.Runners`: each answer may depend on every call
issued before it and on the request. -/
structure Client where
  ListRunners : List Call → ListRunnersOptions → ListResult
  ListGroupsRunners : List Call → String → ListGroupsRunnersOptions → ListResult
  DeleteRegisteredRunnerByID : List Call → Int → Option Error

/-- The settings read through viper. -/
structure Config where
  GITLAB_TOKEN : String
  PAGE_SIZE : Int
  DELETE_PERSONAL : Bool
  DELETE_GROUP_RUNNERS : Bool
  GROUP_IDS : List String
  DRY_RUN : Bool
deriving DecidableEq, Repr

/-- The zerolog levels used by the program. -/
inductive Level where
  | trace | debug | error | fatal
deriving DecidableEq, Repr

/-- One logger call: level, message and the `runner_id` field when the logger carries one. -/
structure LogEntry where
  level : Level
  msg : String
  runnerID : Option Int
deriving DecidableEq, Repr

/-- The observable state of a run. -/
structure World where
  listOptions : ListOptions
  calls : List Call
  logs : List LogEntry
deriving DecidableEq, Repr

/-- How a function of the program ends. -/
inductive Outcome where
  | returned (err : Option Error)
  | panicked
  | fatal
deriving DecidableEq, Repr

/-- Go `var desiredStatus = "offline"`. -/
def desiredStatus : String := "offline"

/-- Record a logger call. -/
def World.log (w : World) (level : Level) (msg : String) (runnerID : Option Int) : World :=
  { w with logs := w.logs ++ [⟨level, msg, runnerID⟩] }

/-- Record an API call. -/
def World.call (w : World) (c : Call) : World :=
  { w with calls := w.calls ++ [c] }

/-! ## `deleteRunnersFromResults` -/

/-- Go `deleteRunnersFromResults`: the `for _, r := range runnerList` loop with its
five-way `switch`.  The three skipping cases `continue`; the two deleting cases
fall to the `if err != nil` test after the switch. -/
def deleteRunnersFromResults (gl : Client) (cfg : Config) : World → List Runner → Option Error × World
  | w, [] => (none, w)
  | w, r :: rest =>
    if cfg.DRY_RUN then
      deleteRunnersFromResults gl cfg (w.log .debug "dry-run: deleting" (some r.ID)) rest
    else if r.Online then
      deleteRunnersFromResults gl cfg (w.log .trace "runner is online, skipping" (some r.ID)) rest
    else if r.IsShared then
      deleteRunnersFromResults gl cfg (w.log .trace "runner is shared, skipping" (some r.ID)) rest
    else
      let w1 :=
        if r.Status = "not_connected" then
          w.log .trace "runner status is no_connected, deleting" (some r.ID)
        else
          w.log .debug "deleting runner" (some r.ID)
      let err := gl.DeleteRegisteredRunnerByID w1.calls r.ID
      let w2 := w1.call (.DeleteRegisteredRunnerByID r.ID)
      match err with
      | some e => (some e, w2.log .error "cannot delete runner" (some r.ID))
      | none => deleteRunnersFromResults gl cfg w2 rest

/-! ## `runGroupRunners` -/

/-- The `for k, r := range runnerList` loop of `runGroupRunners`: shared records are
logged and skipped, the others are appended to `totalRunnerList`. -/
def appendNonShared : World → List Runner → List Runner → World × List Runner
  | w, totalRunnerList, [] => (w, totalRunnerList)
  | w, totalRunnerList, r :: rest =>
    if r.IsShared then
      appendNonShared (w.log .trace "runner is shared, skipping" (some r.ID)) totalRunnerList rest
    else
      appendNonShared w (totalRunnerList ++ [r]) rest

/-- How the inner `for` loop of `runGroupRunners` is left: by the `break` of line 100,
with the list collected so far, or by leaving the function. -/
inductive LoopExit where
  | broke (totalRunnerList : List Runner)
  | left (o : Outcome)
deriving DecidableEq, Repr

/-- The inner `for` loop of `runGroupRunners` (lines 68-102), one iteration per unit of
fuel.  In the `switch`, `case len(runnerList) == 0: break` leaves the switch only (a Go
`break` inside a `switch` does not leave the enclosing `for`), so an empty page runs the
rest of the body like any other page.  `resp.TotalItems` dereferences `resp`. -/
def collectGroupRunners (gl : Client) (groupID : String) :
    Nat → World → List Runner → Option LoopExit × World
  | 0, w, _ => (none, w)
  | fuel + 1, w, totalRunnerList =>
    let w1 : World := { w with listOptions := { w.listOptions with Page := w.listOptions.Page + 1 } }
    let opt : ListGroupsRunnersOptions := ⟨w1.listOptions, some desiredStatus⟩
    let res := gl.ListGroupsRunners w1.calls groupID opt
    let w2 := w1.call (.ListGroupsRunners groupID opt)
    match res.err with
    | some e => (some (.left (.returned (some e))), w2.log .error "cannot list group runners" none)
    | none =>
      match res.resp with
      | none => (some (.left .panicked), w2)
      | some resp =>
        let w3 := w2.log .trace "got group runners" none
        let step := appendNonShared w3 totalRunnerList res.runners
        if step.1.listOptions.Page + 1 ≥ resp.TotalPages then
          (some (.broke step.2), step.1.log .trace "reached the end of the list" none)
        else
          collectGroupRunners gl groupID fuel step.1 step.2

/-- Go `runGroupRunners`.  The outer `for` runs its body once: it resets
`listOptions.Page` to `-1`, runs the inner loop, and returns the result of
`deleteRunnersFromResults` on the collected list. -/
def runGroupRunners (gl : Client) (cfg : Config) (groupID : String) (fuel : Nat) (w : World) :
    Option Outcome × World :=
  let w0 := w.log .debug "collecting runners" none
  let w1 : World := { w0 with listOptions := { w0.listOptions with Page := -1 } }
  match collectGroupRunners gl groupID fuel w1 [] with
  | (none, w2) => (none, w2)
  | (some (.left o), w2) => (some o, w2)
  | (some (.broke totalRunnerList), w2) =>
    let r := deleteRunnersFromResults gl cfg w2 totalRunnerList
    (some (.returned r.1), r.2)

/-! ## `runPersonalRunners` -/

/-- Go `runPersonalRunners`, one iteration of its `for` per unit of fuel.  The request
is built from `listOptions` alone: the `Status` line of the options literal is commented
out in the source (line 115).  The logger of line 117 reads `resp.TotalItems` before the
`switch` looks at `err`. -/
def runPersonalRunners (gl : Client) (cfg : Config) : Nat → World → Option Outcome × World
  | 0, w => (none, w)
  | fuel + 1, w =>
    let opt : ListRunnersOptions := ⟨w.listOptions, none⟩
    let res := gl.ListRunners w.calls opt
    let w1 := w.call (.ListRunners opt)
    match res.resp with
    | none => (some .panicked, w1)
    | some resp =>
      match res.err with
      | some e => (some (.returned (some e)), w1.log .error "cannot list runners" none)
      | none =>
        if resp.TotalItems = 0 ∨ res.runners.length = 0 then
          (some (.returned none), w1.log .debug "no offline runners found" none)
        else
          match deleteRunnersFromResults gl cfg w1 res.runners with
          | (some e, w2) => (some (.returned (some e)), w2)
          | (none, w2) => runPersonalRunners gl cfg fuel w2

/-! ## `main` -/

/-- The `for _, id := range groupIds` loop of `main`: the error returned for a group is
discarded (`_ = runGroupRunners(...)`); a panic ends the process. -/
def runGroups (gl : Client) (cfg : Config) (fuel : Nat) : World → List String → Option Outcome × World
  | w, [] => (some (.returned none), w)
  | w, id :: rest =>
    match runGroupRunners gl cfg id fuel w with
    | (some (.returned _), w1) => runGroups gl cfg fuel w1 rest
    | other => other

/-- Go `main`.  `NewClient` stands for `gitlab.NewClient`; `log.Fatal` ends the process
(`Outcome.fatal`).  The `fmt.Println("cleaning")` line writes to standard output and is
not recorded.  Every loop started by `main` gets the same fuel. -/
def main (NewClient : String → Except Error Client) (cfg : Config) (fuel : Nat) :
    Option Outcome × World :=
  let w0 : World := ⟨⟨0, cfg.PAGE_SIZE⟩, [], []⟩
  if cfg.GITLAB_TOKEN = "" then
    (some .fatal, w0.log .fatal "you need to set GITLAB_TOKEN env var" none)
  else
    let w1 := w0.log .debug "Connecting to gitlab..." none
    match NewClient cfg.GITLAB_TOKEN with
    | .error _ => (some .fatal, w1.log .fatal "cannot connect to gitlab server" none)
    | .ok gl =>
      let personal :=
        if cfg.DELETE_PERSONAL then runPersonalRunners gl cfg fuel w1
        else (some (.returned none), w1)
      match personal with
      | (some (.returned _), w2) =>
        if cfg.DELETE_GROUP_RUNNERS then
          if cfg.GROUP_IDS.length = 0 then
            (some .fatal, w2.log .fatal
              "group runner deletion has been required, but no group ids has been set. Check GROUP_IDS var" none)
          else
            runGroups gl cfg fuel w2 cfg.GROUP_IDS
        else
          (some (.returned none), w2)
      | other => other

/-! ## Vocabulary for the statements -/

/-- A record that the deletion switch sends to a delete call: neither online nor shared. -/
def deletable (r : Runner) : Bool := !r.Online && !r.IsShared

/-- The delete call for a record. -/
def deleteCall (r : Runner) : Call := .DeleteRegisteredRunnerByID r.ID

/-- The group list request for page `i` (the loop counts pages from `0`). -/
def groupRequest (perPage : Int) (i : Nat) : ListGroupsRunnersOptions :=
  ⟨⟨(i : Int), perPage⟩, some desiredStatus⟩

/-- The group list calls for pages `0, ..., n - 1`, in this order. -/
def groupCalls (groupID : String) (perPage : Int) : Nat → List Call
  | 0 => []
  | n + 1 => groupCalls groupID perPage n ++ [Call.ListGroupsRunners groupID (groupRequest perPage n)]

/-- The answer of the API to the request for page `i` of a group, when the calls `hist`
were issued before the enumeration and pages `0, ..., i - 1` were requested since. -/
def groupResponse (gl : Client) (groupID : String) (perPage : Int) (hist : List Call) (i : Nat) :
    ListResult :=
  gl.ListGroupsRunners (hist ++ groupCalls groupID perPage i) groupID (groupRequest perPage i)

/-- A list answer without error that carries a response object. -/
def ListResult.succeeded (r : ListResult) : Prop := r.err = none ∧ r.resp ≠ none

/-- The loop test `listOptions.Page+1 >= resp.TotalPages` on the answer for page `i`. -/
def ListResult.endsAt (r : ListResult) (i : Nat) : Prop :=
  ∃ resp, r.resp = some resp ∧ (i : Int) + 1 ≥ resp.TotalPages

/-- The non-shared records of pages `0, ..., n - 1`, page by page, in listing order. -/
def nonSharedOfPages (pages : Nat → ListResult) : Nat → List Runner
  | 0 => []
  | n + 1 => nonSharedOfPages pages n ++ (pages n).runners.filter fun r => !r.IsShared

/-- The dry-run log entry of a record. -/
def dryRunEntry (r : Runner) : LogEntry := ⟨.debug, "dry-run: deleting", some r.ID⟩

/-! ## Concrete inputs -/

/-- A record with the given id and flags; the text fields are immaterial. -/
def mkRunner (id : Int) (online shared : Bool) (status : String) : Runner :=
  ⟨id, "runner", "", "project_type", online, shared, status⟩

/-- An API on which every delete call succeeds and every listing is empty. -/
def quietClient : Client where
  ListRunners := fun _ _ => ⟨[], some ⟨0, 0⟩, none⟩
  ListGroupsRunners := fun _ _ _ => ⟨[], some ⟨0, 0⟩, none⟩
  DeleteRegisteredRunnerByID := fun _ _ => none

/-- An API on which the delete call for id `3` fails and every other one succeeds. -/
def failingClient : Client where
  ListRunners := fun _ _ => ⟨[], some ⟨0, 0⟩, none⟩
  ListGroupsRunners := fun _ _ _ => ⟨[], some ⟨0, 0⟩, none⟩
  DeleteRegisteredRunnerByID := fun _ id => if id = 3 then some "403 Forbidden" else none

/-- The default settings of `main` with a token, and the given `DRY_RUN`. -/
def defaultConfig (dryRun : Bool) : Config :=
  ⟨"token", 50, true, false, [], dryRun⟩

/-- The world at the start of a run with page size 50. -/
def startWorld : World := ⟨⟨0, 50⟩, [], []⟩

/-- The two records of the personal scenario: one offline and non-shared, one online. -/
def scenarioRunners : List Runner :=
  [mkRunner 1 false false "offline", mkRunner 2 true false "online"]

/-- Four records: deletable, online, deletable with a failing delete, deletable. -/
def mixedRunners : List Runner :=
  [mkRunner 1 false false "offline", mkRunner 2 true false "online",
   mkRunner 3 false false "not_connected", mkRunner 4 false false "offline"]

/-- The group scenario of the specification: page `0` holds the shared record `10`,
every later page holds the record `11`; each answer reports two pages. -/
def scenarioGroupClient : Client where
  ListRunners := fun _ _ => ⟨[], some ⟨0, 0⟩, none⟩
  ListGroupsRunners := fun _ _ opt =>
    if opt.ListOptions.Page = 0 then ⟨[mkRunner 10 false true "offline"], some ⟨2, 2⟩, none⟩
    else ⟨[mkRunner 11 false false "not_connected"], some ⟨2, 2⟩, none⟩
  DeleteRegisteredRunnerByID := fun _ _ => none

/-- An API whose group listing has three pages of one record each (fewer than the page
size `50`): page `i` holds the record with id `i`. -/
def shortPageClient : Client where
  ListRunners := fun _ _ => ⟨[], some ⟨0, 0⟩, none⟩
  ListGroupsRunners := fun _ _ opt =>
    ⟨[mkRunner opt.ListOptions.Page false false "offline"], some ⟨3, 3⟩, none⟩
  DeleteRegisteredRunnerByID := fun _ _ => none

/-- An API whose group listing answers every request with an empty page and reports
three pages. -/
def emptyPageClient : Client where
  ListRunners := fun _ _ => ⟨[], some ⟨0, 0⟩, none⟩
  ListGroupsRunners := fun _ _ _ => ⟨[], some ⟨0, 3⟩, none⟩
  DeleteRegisteredRunnerByID := fun _ _ => none

/-- The world in which `runGroupRunners` enters its inner loop: `"collecting runners"`
is logged and `listOptions.Page` is `-1`. -/
def groupLoopEntry (w : World) : World :=
  ⟨⟨-1, w.listOptions.PerPage⟩, w.calls, w.logs ++ [⟨.debug, "collecting runners", none⟩]⟩

/-- An API whose list calls fail on the transport: no records, no response object, an
error. -/
def unreachableClient : Client where
  ListRunners := fun _ _ => ⟨[], none, some "connection refused"⟩
  ListGroupsRunners := fun _ _ _ => ⟨[], none, some "connection refused"⟩
  DeleteRegisteredRunnerByID := fun _ _ => none

/-- An API whose personal listing always holds the same offline, non-shared record. -/
def unchangedClient : Client where
  ListRunners := fun _ _ => ⟨[mkRunner 1 false false "offline"], some ⟨1, 1⟩, none⟩
  ListGroupsRunners := fun _ _ _ => ⟨[], some ⟨0, 0⟩, none⟩
  DeleteRegisteredRunnerByID := fun _ _ => none

/-- A `gitlab.NewClient` that succeeds with the given API. -/
def connect (gl : Client) : String → Except Error Client := fun _ => .ok gl

/-- Group cleanup requested without group ids, personal cleanup left at its default. -/
def noGroupIdsConfig : Config :=
  ⟨"token", 50, true, true, [], false⟩

/-- The world in which `main` starts its passes: `listOptions` holds the page size and
the connection is logged. -/
def mainEntry (cfg : Config) : World :=
  ⟨⟨0, cfg.PAGE_SIZE⟩, [], [⟨.debug, "Connecting to gitlab...", none⟩]⟩

/-! ## Lemmas on `deleteRunnersFromResults` -/

theorem deleteRunnersFromResults_dry (gl : Client) (cfg : Config) (h : cfg.DRY_RUN = true)
    (w : World) (l : List Runner) :
    deleteRunnersFromResults gl cfg w l = (none, { w with logs := w.logs ++ l.map dryRunEntry }) := by
  induction l generalizing w with
  | nil => simp [deleteRunnersFromResults]
  | cons r rest ih => simp [deleteRunnersFromResults, h, ih, World.log, dryRunEntry]

theorem deleteRunnersFromResults_listOptions (gl : Client) (cfg : Config) (w : World)
    (l : List Runner) :
    (deleteRunnersFromResults gl cfg w l).2.listOptions = w.listOptions := by
  induction l generalizing w with
  | nil => simp [deleteRunnersFromResults]
  | cons r rest ih =>
    simp only [deleteRunnersFromResults]
    split_ifs <;> try (rw [ih]; simp [World.log])
    all_goals split <;> simp [ih, World.log, World.call]

/-- The error and the calls of `deleteRunnersFromResults` depend on the world through
its calls only. -/
theorem deleteRunnersFromResults_congr (gl : Client) (cfg : Config) (w w' : World)
    (l : List Runner) (h : w.calls = w'.calls) :
    (deleteRunnersFromResults gl cfg w l).1 = (deleteRunnersFromResults gl cfg w' l).1 ∧
    (deleteRunnersFromResults gl cfg w l).2.calls = (deleteRunnersFromResults gl cfg w' l).2.calls := by
  induction l generalizing w w' with
  | nil => simp [deleteRunnersFromResults, h]
  | cons r rest ih =>
    simp only [deleteRunnersFromResults]
    split_ifs <;> try (apply ih; simp [World.log, h])
    all_goals
      simp only [World.log, World.call, h]
      split
      · simp
      · apply ih; simp

/-- Running on `pre ++ post` is running on `pre` and, when no delete call failed, on `post`. -/
theorem deleteRunnersFromResults_append (gl : Client) (cfg : Config) (w : World)
    (pre post : List Runner) :
    deleteRunnersFromResults gl cfg w (pre ++ post) =
      match deleteRunnersFromResults gl cfg w pre with
      | (none, w1) => deleteRunnersFromResults gl cfg w1 post
      | (some e, w1) => (some e, w1) := by
  induction pre generalizing w with
  | nil => simp [deleteRunnersFromResults]
  | cons r rest ih =>
    simp only [List.cons_append, deleteRunnersFromResults]
    split_ifs
    · exact ih _
    · exact ih _
    · exact ih _
    · split <;> simp [ih]
    · split <;> simp [ih]

/-- A record that is online or shared is stepped over: only a log entry is added. -/
theorem deleteRunnersFromResults_skip (gl : Client) (cfg : Config) (w : World) (r : Runner)
    (rest : List Runner) (h : r.Online = true ∨ r.IsShared = true) :
    ∃ w1, w1.calls = w.calls ∧
      deleteRunnersFromResults gl cfg w (r :: rest) = deleteRunnersFromResults gl cfg w1 rest := by
  simp only [deleteRunnersFromResults]
  split_ifs with h1 h2 h3
  · exact ⟨_, by simp [World.log], rfl⟩
  · exact ⟨_, by simp [World.log], rfl⟩
  · exact ⟨_, by simp [World.log], rfl⟩
  · rcases h with h | h <;> contradiction
  · rcases h with h | h <;> contradiction

theorem deleteRunnersFromResults_calls_take (gl : Client) (cfg : Config) (w : World)
    (l : List Runner) :
    ∃ n, (deleteRunnersFromResults gl cfg w l).2.calls =
      w.calls ++ ((l.take n).filter deletable).map deleteCall := by
  induction l generalizing w with
  | nil => exact ⟨0, by simp [deleteRunnersFromResults]⟩
  | cons r rest ih =>
    by_cases hd : deletable r = true
    · have hon : r.Online = false := by
        simp only [deletable, Bool.and_eq_true, Bool.not_eq_true'] at hd; exact hd.1
      have hsh : r.IsShared = false := by
        simp only [deletable, Bool.and_eq_true, Bool.not_eq_true'] at hd; exact hd.2
      by_cases hdry : cfg.DRY_RUN = true
      · exact ⟨0, by simp [deleteRunnersFromResults_dry gl cfg hdry]⟩
      · simp only [deleteRunnersFromResults, hdry, hon, hsh, Bool.false_eq_true, if_false]
        split
        · exact ⟨1, by split_ifs <;> simp [World.log, World.call, hd, deleteCall]⟩
        · obtain ⟨n, hn⟩ := ih (World.call
            (if r.Status = "not_connected" then
              w.log .trace "runner status is no_connected, deleting" (some r.ID)
            else w.log .debug "deleting runner" (some r.ID))
            (.DeleteRegisteredRunnerByID r.ID))
          refine ⟨n + 1, ?_⟩
          rw [hn]
          split_ifs <;> simp [World.log, World.call, hd, deleteCall]
    · have hs : r.Online = true ∨ r.IsShared = true := by
        simp only [deletable, Bool.and_eq_true, Bool.not_eq_true', not_and,
          Bool.not_eq_false] at hd
        by_cases ho : r.Online = true
        · exact Or.inl ho
        · exact Or.inr (hd (by simpa using ho))
      obtain ⟨w1, hw1, heq⟩ := deleteRunnersFromResults_skip gl cfg w r rest hs
      obtain ⟨n, hn⟩ := ih w1
      refine ⟨n + 1, ?_⟩
      rw [heq, hn, hw1]
      simp [hd]

theorem deleteRunnersFromResults_calls_of_ok (gl : Client) (cfg : Config)
    (hdry : cfg.DRY_RUN = false) (w : World) (l : List Runner)
    (hok : (deleteRunnersFromResults gl cfg w l).1 = none) :
    (deleteRunnersFromResults gl cfg w l).2.calls =
      w.calls ++ (l.filter deletable).map deleteCall := by
  induction l generalizing w with
  | nil => simp [deleteRunnersFromResults]
  | cons r rest ih =>
    by_cases hd : deletable r = true
    · have hon : r.Online = false := by
        simp only [deletable, Bool.and_eq_true, Bool.not_eq_true'] at hd; exact hd.1
      have hsh : r.IsShared = false := by
        simp only [deletable, Bool.and_eq_true, Bool.not_eq_true'] at hd; exact hd.2
      simp only [deleteRunnersFromResults, hdry, hon, hsh, Bool.false_eq_true, if_false] at hok ⊢
      split at hok
      · simp at hok
      · rw [ih _ hok]
        split_ifs <;> simp [World.log, World.call, hd, deleteCall]
    · have hs : r.Online = true ∨ r.IsShared = true := by
        simp only [deletable, Bool.and_eq_true, Bool.not_eq_true', not_and,
          Bool.not_eq_false] at hd
        by_cases ho : r.Online = true
        · exact Or.inl ho
        · exact Or.inr (hd (by simpa using ho))
      obtain ⟨w1, hw1, heq⟩ := deleteRunnersFromResults_skip gl cfg w r rest hs
      rw [heq] at hok ⊢
      rw [ih w1 hok, hw1]
      simp [hd]

theorem deleteRunnersFromResults_ok_of_delete_ok (gl : Client) (cfg : Config)
    (hdel : ∀ hist id, gl.DeleteRegisteredRunnerByID hist id = none) (w : World)
    (l : List Runner) :
    (deleteRunnersFromResults gl cfg w l).1 = none := by
  induction l generalizing w with
  | nil => simp [deleteRunnersFromResults]
  | cons r rest ih =>
    simp only [deleteRunnersFromResults]
    split_ifs
    · exact ih _
    · exact ih _
    · exact ih _
    · simp [hdel, ih]
    · simp [hdel, ih]

theorem deletable_iff (r : Runner) :
    deletable r = true ↔ r.Online = false ∧ r.IsShared = false := by
  simp [deletable]

/-- The delete calls for the deletable records depend on ids and flags only. -/
theorem deleteCalls_congr (l l' : List Runner)
    (h : l.map (fun r => (r.ID, r.Online, r.IsShared)) =
      l'.map (fun r => (r.ID, r.Online, r.IsShared))) :
    (l.filter deletable).map deleteCall = (l'.filter deletable).map deleteCall := by
  induction l generalizing l' with
  | nil =>
    cases l' with
    | nil => rfl
    | cons _ _ => simp at h
  | cons r rest ih =>
    cases l' with
    | nil => simp at h
    | cons r' rest' =>
      simp only [List.map_cons, List.cons.injEq, Prod.mk.injEq] at h
      obtain ⟨⟨hid, hon, hsh⟩, hrest⟩ := h
      have hd : deletable r = deletable r' := by simp [deletable, hon, hsh]
      simp only [List.filter_cons, hd]
      split_ifs
      · simp [deleteCall, hid, ih rest' hrest]
      · exact ih rest' hrest

/-! ## Lemmas on `runGroupRunners` -/

theorem appendNonShared_snd (w : World) (total l : List Runner) :
    (appendNonShared w total l).2 = total ++ l.filter fun r => !r.IsShared := by
  induction l generalizing w total with
  | nil => simp [appendNonShared]
  | cons r rest ih =>
    simp only [appendNonShared]
    split_ifs with h
    · rw [ih]; simp [h]
    · rw [ih]; simp [h]

theorem appendNonShared_fst (w : World) (total l : List Runner) :
    (appendNonShared w total l).1.calls = w.calls ∧
    (appendNonShared w total l).1.listOptions = w.listOptions := by
  induction l generalizing w total with
  | nil => simp [appendNonShared]
  | cons r rest ih =>
    simp only [appendNonShared]
    split_ifs with h
    · have := ih (w.log .trace "runner is shared, skipping" (some r.ID)) total
      simpa [World.log] using this
    · exact ih w (total ++ [r])

/-- One iteration of the inner loop on an answer without error that carries a response:
the page is requested, its non-shared records are appended, and the loop is left exactly
when `listOptions.Page+1 >= resp.TotalPages`. -/
theorem collectGroupRunners_step (gl : Client) (groupID : String) (fuel : Nat) (w : World)
    (total : List Runner) (res : ListResult) (resp : Response)
    (hres : gl.ListGroupsRunners w.calls groupID
      ⟨⟨w.listOptions.Page + 1, w.listOptions.PerPage⟩, some desiredStatus⟩ = res)
    (herr : res.err = none) (hresp : res.resp = some resp) :
    ∃ w4 : World,
      w4.calls = w.calls ++ [Call.ListGroupsRunners groupID
        ⟨⟨w.listOptions.Page + 1, w.listOptions.PerPage⟩, some desiredStatus⟩] ∧
      w4.listOptions = ⟨w.listOptions.Page + 1, w.listOptions.PerPage⟩ ∧
      collectGroupRunners gl groupID (fuel + 1) w total =
        if w.listOptions.Page + 1 + 1 ≥ resp.TotalPages then
          (some (.broke (total ++ res.runners.filter fun r => !r.IsShared)),
            w4.log .trace "reached the end of the list" none)
        else
          collectGroupRunners gl groupID fuel w4 (total ++ res.runners.filter fun r => !r.IsShared) := by
  refine ⟨(appendNonShared
    (((({ w with listOptions := { w.listOptions with Page := w.listOptions.Page + 1 } } : World).call
      (.ListGroupsRunners groupID
        ⟨⟨w.listOptions.Page + 1, w.listOptions.PerPage⟩, some desiredStatus⟩)).log
      .trace "got group runners" none)) total res.runners).1, ?_, ?_, ?_⟩
  · rw [(appendNonShared_fst _ _ _).1]; simp [World.log, World.call]
  · rw [(appendNonShared_fst _ _ _).2]; simp [World.log, World.call]
  · rw [collectGroupRunners]
    simp only [hres, herr, hresp, (appendNonShared_fst _ _ _).2, appendNonShared_snd]
    simp [World.log, World.call]

/-- The inner loop from page `p` on: when the answers for pages `p, ..., k` carry no
error, the loop test fails on the pages before `k` and holds on page `k`, then with more
than `k - p` units of fuel the loop breaks after page `k`, having requested exactly the
pages up to `k` and collected their non-shared records. -/
theorem collectGroupRunners_run (gl : Client) (groupID : String) (perPage : Int)
    (hist : List Call) (base : List Runner) (k : Nat)
    (hok : ∀ i ≤ k, (groupResponse gl groupID perPage hist i).succeeded)
    (hmore : ∀ i < k, ¬ (groupResponse gl groupID perPage hist i).endsAt i)
    (hend : (groupResponse gl groupID perPage hist k).endsAt k)
    (fuel p : Nat) (w : World) (total : List Runner)
    (hp : p ≤ k) (hfuel : k - p < fuel)
    (hopt : w.listOptions = ⟨(p : Int) - 1, perPage⟩)
    (hcalls : w.calls = hist ++ groupCalls groupID perPage p)
    (htotal : total = base ++ nonSharedOfPages (groupResponse gl groupID perPage hist) p) :
    ∃ w1 : World,
      collectGroupRunners gl groupID fuel w total =
        (some (.broke (base ++ nonSharedOfPages (groupResponse gl groupID perPage hist) (k + 1))),
          w1) ∧
      w1.calls = hist ++ groupCalls groupID perPage (k + 1) ∧
      w1.listOptions = ⟨(k : Int), perPage⟩ := by
  induction fuel generalizing p w total with
  | zero => omega
  | succ fuel ih =>
    have hpage : w.listOptions.Page + 1 = (p : Int) := by rw [hopt]; simp
    have hper : w.listOptions.PerPage = perPage := by rw [hopt]
    have hres : gl.ListGroupsRunners w.calls groupID
        ⟨⟨w.listOptions.Page + 1, w.listOptions.PerPage⟩, some desiredStatus⟩ =
        groupResponse gl groupID perPage hist p := by
      rw [hpage, hper, hcalls]; rfl
    obtain ⟨herr, hresp⟩ := hok p hp
    obtain ⟨resp, hresp⟩ := Option.ne_none_iff_exists'.1 hresp
    obtain ⟨w4, hw4c, hw4o, hstep⟩ :=
      collectGroupRunners_step gl groupID fuel w total _ resp hres herr hresp
    rw [hstep, hpage]
    rw [hpage, hper] at hw4c hw4o
    have hcalls4 : w4.calls = hist ++ groupCalls groupID perPage (p + 1) := by
      rw [hw4c, hcalls]; simp [groupCalls, groupRequest]
    have htotal4 : (total ++ (groupResponse gl groupID perPage hist p).runners.filter
        fun r => !r.IsShared) =
        base ++ nonSharedOfPages (groupResponse gl groupID perPage hist) (p + 1) := by
      rw [htotal]; simp [nonSharedOfPages]
    rcases Nat.eq_or_lt_of_le hp with hpk | hpk
    · subst hpk
      obtain ⟨resp', hresp', hle⟩ := hend
      rw [hresp] at hresp'
      cases hresp'
      rw [if_pos hle, htotal4]
      exact ⟨_, rfl, by simpa [World.log] using hcalls4, by simpa [World.log] using hw4o⟩
    · have hnot : ¬ ((p : Int) + 1 ≥ resp.TotalPages) := fun hle =>
        hmore p hpk ⟨resp, hresp, hle⟩
      rw [if_neg hnot]
      exact ih (p + 1) w4 _ hpk (by omega) (by rw [hw4o]; simp) hcalls4 htotal4

theorem nonSharedOfPages_not_shared (pages : Nat → ListResult) (n : Nat) :
    ∀ r ∈ nonSharedOfPages pages n, r.IsShared = false := by
  induction n with
  | zero => simp [nonSharedOfPages]
  | succ n ih =>
    intro r hr
    simp only [nonSharedOfPages, List.mem_append, List.mem_filter] at hr
    rcases hr with hr | hr
    · exact ih r hr
    · simpa using hr.2

theorem nonSharedOfPages_eq_filter (pages : Nat → ListResult) (n : Nat) :
    nonSharedOfPages pages n =
      ((List.range n).flatMap fun i => (pages i).runners).filter fun r => !r.IsShared := by
  induction n with
  | zero => simp [nonSharedOfPages]
  | succ n ih => simp [nonSharedOfPages, ih, List.range_succ, List.flatMap_append]

theorem runGroupRunners_eq (gl : Client) (cfg : Config) (groupID : String) (fuel : Nat)
    (w : World) :
    runGroupRunners gl cfg groupID fuel w =
      match collectGroupRunners gl groupID fuel (groupLoopEntry w) [] with
      | (none, w2) => (none, w2)
      | (some (.left o), w2) => (some o, w2)
      | (some (.broke totalRunnerList), w2) =>
        (some (.returned (deleteRunnersFromResults gl cfg w2 totalRunnerList).1),
          (deleteRunnersFromResults gl cfg w2 totalRunnerList).2) := rfl

/-- The enumeration of a group from its first page: the instance of
`collectGroupRunners_run` used by `runGroupRunners`. -/
theorem collectGroupRunners_from_entry (gl : Client) (groupID : String) (w : World)
    (k fuel : Nat)
    (hok : ∀ i ≤ k, (groupResponse gl groupID w.listOptions.PerPage w.calls i).succeeded)
    (hmore : ∀ i < k, ¬ (groupResponse gl groupID w.listOptions.PerPage w.calls i).endsAt i)
    (hend : (groupResponse gl groupID w.listOptions.PerPage w.calls k).endsAt k)
    (hfuel : k < fuel) :
    ∃ w1 : World,
      collectGroupRunners gl groupID fuel (groupLoopEntry w) [] =
        (some (.broke (nonSharedOfPages
          (groupResponse gl groupID w.listOptions.PerPage w.calls) (k + 1))), w1) ∧
      w1.calls = w.calls ++ groupCalls groupID w.listOptions.PerPage (k + 1) := by
  obtain ⟨w1, h1, h2, _⟩ := collectGroupRunners_run gl groupID w.listOptions.PerPage w.calls []
    k hok hmore hend fuel 0 (groupLoopEntry w) [] (Nat.zero_le k) (by omega)
    (by simp [groupLoopEntry]) (by simp [groupLoopEntry, groupCalls])
    (by simp [nonSharedOfPages])
  exact ⟨w1, by simpa using h1, h2⟩

/-- The inner loop from page `p` on, when the answer for page `k` carries an error after
successful pages that fail the loop test: the error leaves the function after the request
for page `k`, and only list requests were issued. -/
theorem collectGroupRunners_run_error (gl : Client) (groupID : String) (perPage : Int)
    (hist : List Call) (k : Nat) (e : Error)
    (hok : ∀ i < k, (groupResponse gl groupID perPage hist i).succeeded)
    (hmore : ∀ i < k, ¬ (groupResponse gl groupID perPage hist i).endsAt i)
    (herr : (groupResponse gl groupID perPage hist k).err = some e)
    (fuel p : Nat) (w : World) (total : List Runner)
    (hp : p ≤ k) (hfuel : k - p < fuel)
    (hopt : w.listOptions = ⟨(p : Int) - 1, perPage⟩)
    (hcalls : w.calls = hist ++ groupCalls groupID perPage p) :
    (collectGroupRunners gl groupID fuel w total).1 = some (.left (.returned (some e))) ∧
    (collectGroupRunners gl groupID fuel w total).2.calls =
      hist ++ groupCalls groupID perPage (k + 1) := by
  induction fuel generalizing p w total with
  | zero => omega
  | succ fuel ih =>
    have hpage : w.listOptions.Page + 1 = (p : Int) := by rw [hopt]; simp
    have hper : w.listOptions.PerPage = perPage := by rw [hopt]
    have hres : gl.ListGroupsRunners w.calls groupID
        ⟨⟨w.listOptions.Page + 1, w.listOptions.PerPage⟩, some desiredStatus⟩ =
        groupResponse gl groupID perPage hist p := by
      rw [hpage, hper, hcalls]; rfl
    rcases Nat.eq_or_lt_of_le hp with hpk | hpk
    · subst hpk
      rw [collectGroupRunners]
      simp only [hres, herr]
      refine ⟨trivial, ?_⟩
      simp only [World.log, World.call, hcalls, hpage, hper]
      simp [groupCalls, groupRequest]
    · obtain ⟨herr0, hresp⟩ := hok p hpk
      obtain ⟨resp, hresp⟩ := Option.ne_none_iff_exists'.1 hresp
      obtain ⟨w4, hw4c, hw4o, hstep⟩ :=
        collectGroupRunners_step gl groupID fuel w total _ resp hres herr0 hresp
      rw [hstep, hpage]
      rw [hpage, hper] at hw4c hw4o
      have hcalls4 : w4.calls = hist ++ groupCalls groupID perPage (p + 1) := by
        rw [hw4c, hcalls]; simp [groupCalls, groupRequest]
      have hnot : ¬ ((p : Int) + 1 ≥ resp.TotalPages) := fun hle =>
        hmore p hpk ⟨resp, hresp, hle⟩
      rw [if_neg hnot]
      exact ih (p + 1) w4 _ hpk (by omega) (by rw [hw4o]; simp) hcalls4

/-- A listing error on page `k` of a group, after pages that did not end the
enumeration: `runGroupRunners` returns that error, and its calls are the list requests
for pages `0, ..., k` only, so no delete call is issued for the group. -/
theorem runGroupRunners_list_error (gl : Client) (cfg : Config) (groupID : String)
    (w : World) (k fuel : Nat) (e : Error)
    (hok : ∀ i < k, (groupResponse gl groupID w.listOptions.PerPage w.calls i).succeeded)
    (hmore : ∀ i < k, ¬ (groupResponse gl groupID w.listOptions.PerPage w.calls i).endsAt i)
    (herr : (groupResponse gl groupID w.listOptions.PerPage w.calls k).err = some e)
    (hfuel : k < fuel) :
    (runGroupRunners gl cfg groupID fuel w).1 = some (.returned (some e)) ∧
    (runGroupRunners gl cfg groupID fuel w).2.calls =
      w.calls ++ groupCalls groupID w.listOptions.PerPage (k + 1) := by
  obtain ⟨h1, h2⟩ := collectGroupRunners_run_error gl groupID w.listOptions.PerPage w.calls
    k e hok hmore herr fuel 0 (groupLoopEntry w) [] (Nat.zero_le k) (by omega)
    (by simp [groupLoopEntry]) (by simp [groupLoopEntry, groupCalls])
  rw [runGroupRunners_eq]
  rcases hrun : collectGroupRunners gl groupID fuel (groupLoopEntry w) [] with ⟨ex, w2⟩
  rw [hrun] at h1 h2
  simp only at h1 h2
  subst h1
  exact ⟨rfl, h2⟩

/-- An empty page does not end the enumeration: with three pages reported, the loop
requests pages `1` and `2` after the empty page `0`. -/
theorem collectGroupRunners_empty_page_continues :
    (groupResponse emptyPageClient "42" 50 [] 0).runners = [] ∧
    (collectGroupRunners emptyPageClient "42" 3 (groupLoopEntry startWorld) []).2.calls =
      [Call.ListGroupsRunners "42" ⟨⟨0, 50⟩, some "offline"⟩,
       Call.ListGroupsRunners "42" ⟨⟨1, 50⟩, some "offline"⟩,
       Call.ListGroupsRunners "42" ⟨⟨2, 50⟩, some "offline"⟩] :=
  ⟨rfl, rfl⟩

/-! ## Lemmas on `runPersonalRunners` -/

/-- Every call of a personal pass is a call made before it, the list request built from
`listOptions` without status filter, or a delete call; the pass leaves `listOptions`
as it found it. -/
theorem runPersonalRunners_calls (gl : Client) (cfg : Config) (fuel : Nat) (w : World) :
    (runPersonalRunners gl cfg fuel w).2.listOptions = w.listOptions ∧
    ∀ c ∈ (runPersonalRunners gl cfg fuel w).2.calls,
      c ∈ w.calls ∨ c = Call.ListRunners ⟨w.listOptions, none⟩ ∨
        ∃ id, c = Call.DeleteRegisteredRunnerByID id := by
  induction fuel generalizing w with
  | zero => exact ⟨rfl, fun c hc => Or.inl hc⟩
  | succ fuel ih =>
    rw [runPersonalRunners]
    have hcall : ∀ c ∈ (w.call (.ListRunners ⟨w.listOptions, none⟩)).calls,
        c ∈ w.calls ∨ c = Call.ListRunners ⟨w.listOptions, none⟩ ∨
          ∃ id, c = Call.DeleteRegisteredRunnerByID id := by
      intro c hc
      simp only [World.call, List.mem_append, List.mem_singleton] at hc
      rcases hc with hc | hc
      · exact Or.inl hc
      · exact Or.inr (Or.inl hc)
    split
    · exact ⟨rfl, hcall⟩
    · split
      · exact ⟨rfl, by simpa [World.log] using hcall⟩
      · split_ifs
        · exact ⟨rfl, by simpa [World.log] using hcall⟩
        · rename_i res _ _
          have hopt := deleteRunnersFromResults_listOptions gl cfg
            (w.call (.ListRunners ⟨w.listOptions, none⟩))
            (gl.ListRunners w.calls ⟨w.listOptions, none⟩).runners
          obtain ⟨n, hn⟩ := deleteRunnersFromResults_calls_take gl cfg
            (w.call (.ListRunners ⟨w.listOptions, none⟩))
            (gl.ListRunners w.calls ⟨w.listOptions, none⟩).runners
          have hdel : ∀ c ∈ (deleteRunnersFromResults gl cfg
              (w.call (.ListRunners ⟨w.listOptions, none⟩))
              (gl.ListRunners w.calls ⟨w.listOptions, none⟩).runners).2.calls,
              c ∈ w.calls ∨ c = Call.ListRunners ⟨w.listOptions, none⟩ ∨
                ∃ id, c = Call.DeleteRegisteredRunnerByID id := by
            intro c hc
            rw [hn, List.mem_append] at hc
            rcases hc with hc | hc
            · exact hcall c hc
            · obtain ⟨r, _, hr⟩ := List.mem_map.1 hc
              exact Or.inr (Or.inr ⟨r.ID, hr.symm⟩)
          split
          · rename_i heq
            rw [heq] at hopt hdel
            exact ⟨by simpa [World.call] using hopt, hdel⟩
          · rename_i w2 heq
            rw [heq] at hopt hdel
            have hopt2 : w2.listOptions = w.listOptions := by simpa [World.call] using hopt
            obtain ⟨h1, h2⟩ := ih w2
            refine ⟨h1.trans hopt2, ?_⟩
            intro c hc
            rcases h2 c hc with h | h | h
            · exact hdel c h
            · exact Or.inr (Or.inl (by rw [h, hopt2]))
            · exact Or.inr (Or.inr h)

/-- A listing error that comes with a response object: `runPersonalRunners` returns
that error after the one list request, without any further call. -/
theorem runPersonalRunners_list_error (gl : Client) (cfg : Config) (fuel : Nat) (w : World)
    (e : Error) (resp : Response)
    (hresp : (gl.ListRunners w.calls ⟨w.listOptions, none⟩).resp = some resp)
    (herr : (gl.ListRunners w.calls ⟨w.listOptions, none⟩).err = some e) :
    (runPersonalRunners gl cfg (fuel + 1) w).1 = some (.returned (some e)) ∧
    (runPersonalRunners gl cfg (fuel + 1) w).2.calls =
      w.calls ++ [Call.ListRunners ⟨w.listOptions, none⟩] := by
  rw [runPersonalRunners]
  simp only [hresp, herr]
  exact ⟨trivial, rfl⟩

/-- A list answer without response object: `runPersonalRunners` panics on
`resp.TotalItems`, whatever the error of the answer. -/
theorem runPersonalRunners_nil_response (gl : Client) (cfg : Config) (fuel : Nat) (w : World)
    (hresp : (gl.ListRunners w.calls ⟨w.listOptions, none⟩).resp = none) :
    (runPersonalRunners gl cfg (fuel + 1) w).1 = some .panicked := by
  rw [runPersonalRunners]
  simp only [hresp]

/-! ## The claims -/

/-- C1: whatever the list, the `DRY_RUN` setting and the answers of the delete API,
the delete calls issued by `deleteRunnersFromResults` are the delete calls of the
records with `Online == false` and `IsShared == false` among the first `n` records
of the list, for some `n`; and a record that is online or shared gets no call: taking
it out of the list changes neither the returned error nor the calls. -/
theorem deleteRunnersFromResults_only_offline_nonshared (gl : Client) (cfg : Config)
    (w : World) (l : List Runner) :
    (∃ issued : List Runner,
      (∃ n, issued = (l.take n).filter deletable) ∧
      (deleteRunnersFromResults gl cfg w l).2.calls = w.calls ++ issued.map deleteCall ∧
      ∀ r ∈ issued, r ∈ l ∧ r.Online = false ∧ r.IsShared = false) ∧
    (∀ pre r post, l = pre ++ r :: post → (r.Online = true ∨ r.IsShared = true) →
      (deleteRunnersFromResults gl cfg w l).1 =
        (deleteRunnersFromResults gl cfg w (pre ++ post)).1 ∧
      (deleteRunnersFromResults gl cfg w l).2.calls =
        (deleteRunnersFromResults gl cfg w (pre ++ post)).2.calls) := by
  constructor
  · obtain ⟨n, hn⟩ := deleteRunnersFromResults_calls_take gl cfg w l
    refine ⟨(l.take n).filter deletable, ⟨n, rfl⟩, hn, ?_⟩
    intro r hr
    rw [List.mem_filter] at hr
    exact ⟨List.mem_of_mem_take hr.1, (deletable_iff r).1 hr.2⟩
  · intro pre r post hl hr
    subst hl
    rw [deleteRunnersFromResults_append, deleteRunnersFromResults_append gl cfg w pre post]
    rcases hpre : deleteRunnersFromResults gl cfg w pre with ⟨_ | e, w1⟩
    · obtain ⟨w2, hw2, heq⟩ := deleteRunnersFromResults_skip gl cfg w1 r post hr
      simp only [heq]
      exact deleteRunnersFromResults_congr gl cfg w2 w1 post hw2
    · simp

/-- C1, on a concrete run: the online record `2` of `mixedRunners` gets no call. -/
theorem deleteRunnersFromResults_only_offline_nonshared_witness :
    mixedRunners = [mkRunner 1 false false "offline"] ++ mkRunner 2 true false "online" ::
      [mkRunner 3 false false "not_connected", mkRunner 4 false false "offline"] ∧
    ((mkRunner 2 true false "online").Online = true ∨
      (mkRunner 2 true false "online").IsShared = true) ∧
    (deleteRunnersFromResults failingClient (defaultConfig false) startWorld mixedRunners).2.calls =
      (deleteRunnersFromResults failingClient (defaultConfig false) startWorld
        ([mkRunner 1 false false "offline"] ++
          [mkRunner 3 false false "not_connected", mkRunner 4 false false "offline"])).2.calls :=
  ⟨rfl, Or.inl rfl,
    ((deleteRunnersFromResults_only_offline_nonshared failingClient (defaultConfig false)
      startWorld mixedRunners).2 [mkRunner 1 false false "offline"]
      (mkRunner 2 true false "online")
      [mkRunner 3 false false "not_connected", mkRunner 4 false false "offline"]
      rfl (Or.inl rfl)).2⟩

/-- C2: with `DRY_RUN` enabled, `deleteRunnersFromResults` returns no error on every
list and leaves the calls untouched: its only effect is one dry-run log entry per
record, in listing order. -/
theorem deleteRunnersFromResults_dry_run (gl : Client) (cfg : Config) (w : World)
    (l : List Runner) (hdry : cfg.DRY_RUN = true) :
    deleteRunnersFromResults gl cfg w l =
      (none, { w with logs := w.logs ++ l.map dryRunEntry }) ∧
    (deleteRunnersFromResults gl cfg w l).1 = none ∧
    (deleteRunnersFromResults gl cfg w l).2.calls = w.calls := by
  rw [deleteRunnersFromResults_dry gl cfg hdry]
  exact ⟨rfl, rfl, rfl⟩

/-- C2, on a concrete run: dry run over `mixedRunners` with an API whose delete fails. -/
theorem deleteRunnersFromResults_dry_run_witness :
    (defaultConfig true).DRY_RUN = true ∧
    (deleteRunnersFromResults failingClient (defaultConfig true) startWorld mixedRunners).1 = none ∧
    (deleteRunnersFromResults failingClient (defaultConfig true) startWorld mixedRunners).2.calls
      = [] :=
  ⟨rfl, (deleteRunnersFromResults_dry_run failingClient (defaultConfig true) startWorld
    mixedRunners rfl).2⟩

/-- C3: with `DRY_RUN` off and a delete API that never fails, `deleteRunnersFromResults`
returns no error and issues exactly the delete calls of the records with
`Online == false` and `IsShared == false`, by id, in listing order; two lists with the
same ids and flags (whatever their `Status` values) give the same calls. -/
theorem deleteRunnersFromResults_all_deleted (gl : Client) (cfg : Config) (w : World)
    (l : List Runner) (hdry : cfg.DRY_RUN = false)
    (hdel : ∀ hist id, gl.DeleteRegisteredRunnerByID hist id = none) :
    (deleteRunnersFromResults gl cfg w l).1 = none ∧
    (deleteRunnersFromResults gl cfg w l).2.calls =
      w.calls ++ (l.filter deletable).map deleteCall ∧
    ∀ l' : List Runner,
      l'.map (fun r => (r.ID, r.Online, r.IsShared)) =
        l.map (fun r => (r.ID, r.Online, r.IsShared)) →
      (deleteRunnersFromResults gl cfg w l').2.calls =
        (deleteRunnersFromResults gl cfg w l).2.calls := by
  have hok := deleteRunnersFromResults_ok_of_delete_ok gl cfg hdel
  refine ⟨hok w l, deleteRunnersFromResults_calls_of_ok gl cfg hdry w l (hok w l), ?_⟩
  intro l' hl'
  rw [deleteRunnersFromResults_calls_of_ok gl cfg hdry w l (hok w l),
    deleteRunnersFromResults_calls_of_ok gl cfg hdry w l' (hok w l'),
    deleteCalls_congr l' l hl']

/-- C3, on the personal scenario of the specification: records `1` (offline) and `2`
(online) give exactly one delete call, for id `1`. -/
theorem deleteRunnersFromResults_all_deleted_witness :
    (defaultConfig false).DRY_RUN = false ∧
    (∀ hist id, quietClient.DeleteRegisteredRunnerByID hist id = none) ∧
    (deleteRunnersFromResults quietClient (defaultConfig false) startWorld scenarioRunners).1
      = none ∧
    (deleteRunnersFromResults quietClient (defaultConfig false) startWorld scenarioRunners).2.calls
      = [Call.DeleteRegisteredRunnerByID 1] :=
  ⟨rfl, fun _ _ => rfl,
    (deleteRunnersFromResults_all_deleted quietClient (defaultConfig false) startWorld
      scenarioRunners rfl (fun _ _ => rfl)).1,
    (deleteRunnersFromResults_all_deleted quietClient (defaultConfig false) startWorld
      scenarioRunners rfl (fun _ _ => rfl)).2.1⟩

/-- C6: with `DRY_RUN` off, when no delete call fails on the records before `r` and
the delete call for the deletable record `r` fails with `e`, `deleteRunnersFromResults`
returns `e`, and its calls are exactly the delete calls of the deletable records before
`r`, in listing order, followed by the failing call: nothing is issued for the records
after `r`. -/
theorem deleteRunnersFromResults_stops_at_failure (gl : Client) (cfg : Config) (w : World)
    (pre post : List Runner) (r : Runner) (e : Error) (hdry : cfg.DRY_RUN = false)
    (hr : r.Online = false ∧ r.IsShared = false)
    (hpre : (deleteRunnersFromResults gl cfg w pre).1 = none)
    (hfail : gl.DeleteRegisteredRunnerByID
      (w.calls ++ (pre.filter deletable).map deleteCall) r.ID = some e) :
    (deleteRunnersFromResults gl cfg w (pre ++ r :: post)).1 = some e ∧
    (deleteRunnersFromResults gl cfg w (pre ++ r :: post)).2.calls =
      w.calls ++ (pre.filter deletable).map deleteCall ++ [deleteCall r] := by
  have hcalls := deleteRunnersFromResults_calls_of_ok gl cfg hdry w pre hpre
  rw [deleteRunnersFromResults_append]
  rcases hrun : deleteRunnersFromResults gl cfg w pre with ⟨err, w1⟩
  rw [hrun] at hpre hcalls
  simp only at hpre hcalls
  subst hpre
  simp only [deleteRunnersFromResults, hdry, hr.1, hr.2, Bool.false_eq_true, if_false]
  have hc : (if r.Status = "not_connected" then
      w1.log .trace "runner status is no_connected, deleting" (some r.ID)
    else w1.log .debug "deleting runner" (some r.ID)).calls = w1.calls := by
    split_ifs <;> simp [World.log]
  rw [hc, hcalls, hfail]
  split_ifs <;> simp [World.log, World.call, hcalls, deleteCall]

/-- C6, on a concrete run: the delete call for record `3` of `mixedRunners` fails, so
the calls are those for `1` and `3` and record `4` is never reached. -/
theorem deleteRunnersFromResults_stops_at_failure_witness :
    (defaultConfig false).DRY_RUN = false ∧
    (deleteRunnersFromResults failingClient (defaultConfig false) startWorld mixedRunners).1 =
      some "403 Forbidden" ∧
    (deleteRunnersFromResults failingClient (defaultConfig false) startWorld mixedRunners).2.calls =
      [Call.DeleteRegisteredRunnerByID 1, Call.DeleteRegisteredRunnerByID 3] :=
  ⟨rfl,
    deleteRunnersFromResults_stops_at_failure failingClient (defaultConfig false) startWorld
      [mkRunner 1 false false "offline", mkRunner 2 true false "online"]
      [mkRunner 4 false false "offline"] (mkRunner 3 false false "not_connected")
      "403 Forbidden" rfl ⟨rfl, rfl⟩ rfl rfl⟩

/-- C4: for every group id and every API whose answers for pages `0, ..., k` are
successful, with the loop test `Page+1 >= TotalPages` failing before page `k` and holding
on page `k`: with more than `k` units of fuel the inner loop of `runGroupRunners` breaks
with a candidate list that is exactly the non-shared records of pages `0, ..., k`, in
page order and then listing order; the list holds no shared record, and it is the list
that `runGroupRunners` passes to `deleteRunnersFromResults`. -/
theorem runGroupRunners_candidates (gl : Client) (cfg : Config) (groupID : String)
    (w : World) (k fuel : Nat)
    (hok : ∀ i ≤ k, (groupResponse gl groupID w.listOptions.PerPage w.calls i).succeeded)
    (hmore : ∀ i < k, ¬ (groupResponse gl groupID w.listOptions.PerPage w.calls i).endsAt i)
    (hend : (groupResponse gl groupID w.listOptions.PerPage w.calls k).endsAt k)
    (hfuel : k < fuel) :
    ∃ (candidates : List Runner) (w1 : World),
      candidates = ((List.range (k + 1)).flatMap fun i =>
        (groupResponse gl groupID w.listOptions.PerPage w.calls i).runners).filter
          (fun r => !r.IsShared) ∧
      (∀ r ∈ candidates, r.IsShared = false) ∧
      collectGroupRunners gl groupID fuel (groupLoopEntry w) [] =
        (some (.broke candidates), w1) ∧
      w1.calls = w.calls ++ groupCalls groupID w.listOptions.PerPage (k + 1) ∧
      runGroupRunners gl cfg groupID fuel w =
        (some (.returned (deleteRunnersFromResults gl cfg w1 candidates).1),
          (deleteRunnersFromResults gl cfg w1 candidates).2) := by
  obtain ⟨w1, h1, h2⟩ := collectGroupRunners_from_entry gl groupID w k fuel hok hmore hend hfuel
  refine ⟨_, w1, nonSharedOfPages_eq_filter _ _, nonSharedOfPages_not_shared _ _, h1, h2, ?_⟩
  rw [runGroupRunners_eq, h1]

/-- C4, on the group scenario of the specification (group `42`, page `0` with the shared
record `10`, page `1` with record `11`, two pages in total): the candidate list is
`[11]`, and the calls are the two list requests followed by one delete call, for `11`. -/
theorem runGroupRunners_candidates_witness :
    (∀ i ≤ 1, (groupResponse scenarioGroupClient "42" startWorld.listOptions.PerPage
      startWorld.calls i).succeeded) ∧
    (∀ i < 1, ¬ (groupResponse scenarioGroupClient "42" startWorld.listOptions.PerPage
      startWorld.calls i).endsAt i) ∧
    (groupResponse scenarioGroupClient "42" startWorld.listOptions.PerPage
      startWorld.calls 1).endsAt 1 ∧
    (∃ (candidates : List Runner) (w1 : World),
      candidates = ((List.range (1 + 1)).flatMap fun i =>
        (groupResponse scenarioGroupClient "42" startWorld.listOptions.PerPage
          startWorld.calls i).runners).filter (fun r => !r.IsShared) ∧
      (∀ r ∈ candidates, r.IsShared = false) ∧
      collectGroupRunners scenarioGroupClient "42" 2 (groupLoopEntry startWorld) [] =
        (some (.broke candidates), w1) ∧
      w1.calls = startWorld.calls ++ groupCalls "42" startWorld.listOptions.PerPage (1 + 1) ∧
      runGroupRunners scenarioGroupClient (defaultConfig false) "42" 2 startWorld =
        (some (.returned (deleteRunnersFromResults scenarioGroupClient (defaultConfig false)
            w1 candidates).1),
          (deleteRunnersFromResults scenarioGroupClient (defaultConfig false)
            w1 candidates).2)) ∧
    (collectGroupRunners scenarioGroupClient "42" 2 (groupLoopEntry startWorld) []).1 =
      some (.broke [mkRunner 11 false false "not_connected"]) ∧
    (runGroupRunners scenarioGroupClient (defaultConfig false) "42" 2 startWorld).2.calls =
      [Call.ListGroupsRunners "42" ⟨⟨0, 50⟩, some "offline"⟩,
       Call.ListGroupsRunners "42" ⟨⟨1, 50⟩, some "offline"⟩,
       Call.DeleteRegisteredRunnerByID 11] := by
  have hok : ∀ i ≤ 1, (groupResponse scenarioGroupClient "42" startWorld.listOptions.PerPage
      startWorld.calls i).succeeded := by
    intro i hi
    interval_cases i <;> exact ⟨rfl, by decide⟩
  have hmore : ∀ i < 1, ¬ (groupResponse scenarioGroupClient "42"
      startWorld.listOptions.PerPage startWorld.calls i).endsAt i := by
    intro i hi
    interval_cases i
    rintro ⟨resp, hresp, hle⟩
    have h2 : resp = ⟨2, 2⟩ := (Option.some.inj hresp).symm
    subst h2
    exact absurd hle (by decide)
  have hend : (groupResponse scenarioGroupClient "42" startWorld.listOptions.PerPage
      startWorld.calls 1).endsAt 1 := ⟨⟨2, 2⟩, rfl, by decide⟩
  exact ⟨hok, hmore, hend,
    runGroupRunners_candidates scenarioGroupClient (defaultConfig false) "42" startWorld 1 2
      hok hmore hend (by decide),
    rfl, rfl⟩

/-- C5 as stated fails: the answer for page `0` holds one record, fewer than the page
size `50`, and the loop goes on to request pages `1` and `2`. -/
theorem collectGroupRunners_short_page_continues :
    (groupResponse shortPageClient "42" 50 [] 0).succeeded ∧
    ((groupResponse shortPageClient "42" 50 [] 0).runners.length : Int) <
      startWorld.listOptions.PerPage ∧
    (collectGroupRunners shortPageClient "42" 3 (groupLoopEntry startWorld) []).2.calls =
      [Call.ListGroupsRunners "42" ⟨⟨0, 50⟩, some "offline"⟩,
       Call.ListGroupsRunners "42" ⟨⟨1, 50⟩, some "offline"⟩,
       Call.ListGroupsRunners "42" ⟨⟨2, 50⟩, some "offline"⟩] :=
  ⟨⟨rfl, by decide⟩, by decide, rfl⟩

/-- C5, amended: when the answers for pages `0, ..., k` are successful, the pages before
`k` are non-empty and fail the loop test `Page+1 >= TotalPages` (whatever their
length), and page `k` passes it, then with any fuel above `k` the inner loop of
`runGroupRunners` breaks after page `k`: the list requests issued are exactly those for
pages `0, ..., k`, and every later call of `runGroupRunners` is a delete call. -/
theorem runGroupRunners_stops_at_last_page (gl : Client) (cfg : Config) (groupID : String)
    (w : World) (k fuel : Nat)
    (hok : ∀ i ≤ k, (groupResponse gl groupID w.listOptions.PerPage w.calls i).succeeded)
    (_hnonempty : ∀ i < k,
      (groupResponse gl groupID w.listOptions.PerPage w.calls i).runners ≠ [])
    (hmore : ∀ i < k, ¬ (groupResponse gl groupID w.listOptions.PerPage w.calls i).endsAt i)
    (hend : (groupResponse gl groupID w.listOptions.PerPage w.calls k).endsAt k)
    (hfuel : k < fuel) :
    (∃ total, (collectGroupRunners gl groupID fuel (groupLoopEntry w) []).1 =
      some (.broke total)) ∧
    (collectGroupRunners gl groupID fuel (groupLoopEntry w) []).2.calls =
      w.calls ++ groupCalls groupID w.listOptions.PerPage (k + 1) ∧
    ∃ deleted : List Runner,
      (runGroupRunners gl cfg groupID fuel w).2.calls =
        w.calls ++ groupCalls groupID w.listOptions.PerPage (k + 1) ++
          deleted.map deleteCall := by
  obtain ⟨w1, h1, h2⟩ := collectGroupRunners_from_entry gl groupID w k fuel hok hmore hend hfuel
  refine ⟨⟨_, by rw [h1]⟩, by rw [h1]; exact h2, ?_⟩
  obtain ⟨n, hn⟩ := deleteRunnersFromResults_calls_take gl cfg w1
    (nonSharedOfPages (groupResponse gl groupID w.listOptions.PerPage w.calls) (k + 1))
  refine ⟨(List.take n (nonSharedOfPages
    (groupResponse gl groupID w.listOptions.PerPage w.calls) (k + 1))).filter deletable, ?_⟩
  rw [runGroupRunners_eq, h1]
  simp only
  rw [hn, h2]

/-- C5 amended, on a concrete run: three pages of one record each; the loop stops after
page `2`, the first page with `Page+1 >= TotalPages`. -/
theorem runGroupRunners_stops_at_last_page_witness :
    (∀ i ≤ 2, (groupResponse shortPageClient "42" startWorld.listOptions.PerPage
      startWorld.calls i).succeeded) ∧
    (∀ i < 2, (groupResponse shortPageClient "42" startWorld.listOptions.PerPage
      startWorld.calls i).runners ≠ []) ∧
    (∀ i < 2, ¬ (groupResponse shortPageClient "42" startWorld.listOptions.PerPage
      startWorld.calls i).endsAt i) ∧
    (groupResponse shortPageClient "42" startWorld.listOptions.PerPage
      startWorld.calls 2).endsAt 2 ∧
    (collectGroupRunners shortPageClient "42" 7 (groupLoopEntry startWorld) []).2.calls =
      startWorld.calls ++ groupCalls "42" startWorld.listOptions.PerPage (2 + 1) := by
  have hok : ∀ i ≤ 2, (groupResponse shortPageClient "42" startWorld.listOptions.PerPage
      startWorld.calls i).succeeded := by
    intro i hi
    interval_cases i <;> exact ⟨rfl, by decide⟩
  have hne : ∀ i < 2, (groupResponse shortPageClient "42" startWorld.listOptions.PerPage
      startWorld.calls i).runners ≠ [] := by
    intro i hi
    interval_cases i <;> decide
  have hmore : ∀ i < 2, ¬ (groupResponse shortPageClient "42"
      startWorld.listOptions.PerPage startWorld.calls i).endsAt i := by
    intro i hi
    rintro ⟨resp, hresp, hle⟩
    have h3 : resp = ⟨3, 3⟩ := (Option.some.inj hresp).symm
    subst h3
    interval_cases i <;> exact absurd hle (by decide)
  have hend : (groupResponse shortPageClient "42" startWorld.listOptions.PerPage
      startWorld.calls 2).endsAt 2 := ⟨⟨3, 3⟩, rfl, by decide⟩
  exact ⟨hok, hne, hmore, hend,
    (runGroupRunners_stops_at_last_page shortPageClient (defaultConfig false) "42" startWorld
      2 7 hok hne hmore hend (by decide)).2.1⟩

/-- C7 fails on the personal scope: when the list call returns an error and no response
object, `runPersonalRunners` dereferences the nil response at line 118, before the
`switch` looks at the error, and panics instead of returning the error; on the same
answer `runGroupRunners` returns the error after one list call and no delete call. -/
theorem runPersonalRunners_nil_response_panics (cfg : Config) (fuel : Nat) :
    (unreachableClient.ListRunners [] ⟨startWorld.listOptions, none⟩).err =
      some "connection refused" ∧
    runPersonalRunners unreachableClient cfg (fuel + 1) startWorld =
      (some .panicked, startWorld.call (.ListRunners ⟨⟨0, 50⟩, none⟩)) ∧
    (runPersonalRunners unreachableClient cfg (fuel + 1) startWorld).1 ≠
      some (.returned (some "connection refused")) ∧
    (runGroupRunners unreachableClient cfg "42" (fuel + 1) startWorld).1 =
      some (.returned (some "connection refused")) ∧
    (runGroupRunners unreachableClient cfg "42" (fuel + 1) startWorld).2.calls =
      [Call.ListGroupsRunners "42" ⟨⟨0, 50⟩, some "offline"⟩] := by
  refine ⟨rfl, rfl, ?_, rfl, rfl⟩
  show some Outcome.panicked ≠ _
  simp

/-- C8 fails: every list request that `runPersonalRunners` adds to the calls is built
from `listOptions` alone and carries no status filter (`Status` is nil). -/
theorem runPersonalRunners_requests_unfiltered (gl : Client) (cfg : Config) (fuel : Nat)
    (w : World) (opt : ListRunnersOptions)
    (hin : Call.ListRunners opt ∈ (runPersonalRunners gl cfg fuel w).2.calls)
    (hnew : Call.ListRunners opt ∉ w.calls) :
    opt.Status = none ∧ opt.ListOptions = w.listOptions := by
  rcases (runPersonalRunners_calls gl cfg fuel w).2 _ hin with h | h | ⟨id, h⟩
  · exact absurd h hnew
  · cases h; exact ⟨rfl, rfl⟩
  · cases h

/-- C8, on a concrete run from `main`: with the default settings the one personal list
request carries the page size `50` and no status filter. -/
theorem runPersonalRunners_requests_unfiltered_witness :
    Call.ListRunners ⟨⟨0, 50⟩, none⟩ ∈
      (runPersonalRunners quietClient (defaultConfig false) 1
        (mainEntry (defaultConfig false))).2.calls ∧
    Call.ListRunners ⟨⟨0, 50⟩, none⟩ ∉ (mainEntry (defaultConfig false)).calls ∧
    (main (connect quietClient) (defaultConfig false) 1).2.calls =
      [Call.ListRunners ⟨⟨0, 50⟩, none⟩] ∧
    (⟨⟨0, 50⟩, none⟩ : ListRunnersOptions).Status = none :=
  ⟨by decide, by decide, rfl,
    (runPersonalRunners_requests_unfiltered quietClient (defaultConfig false) 1
      (mainEntry (defaultConfig false)) ⟨⟨0, 50⟩, none⟩ (by decide) (by decide)).1⟩

/-- C9 as stated fails: with `DELETE_GROUP_RUNNERS` true, `GROUP_IDS` empty and
`DELETE_PERSONAL` at its default `true`, `main` ends fatally only after the personal
pass has issued a list call. -/
theorem main_lists_before_group_check :
    noGroupIdsConfig.DELETE_GROUP_RUNNERS = true ∧ noGroupIdsConfig.GROUP_IDS = [] ∧
    (main (connect quietClient) noGroupIdsConfig 1).1 = some .fatal ∧
    (main (connect quietClient) noGroupIdsConfig 1).2.calls =
      [Call.ListRunners ⟨⟨0, 50⟩, none⟩] :=
  ⟨rfl, rfl, rfl, rfl⟩

/-- C9, amended: with `DELETE_GROUP_RUNNERS` true and `GROUP_IDS` empty, `main` with
`DELETE_PERSONAL` false ends fatally without any API call, whatever the other settings;
with `DELETE_PERSONAL` true, a token and a client, its calls are exactly those of the
personal pass, and it ends fatally as soon as that pass returns. -/
theorem main_no_group_ids (NewClient : String → Except Error Client) (cfg : Config)
    (fuel : Nat) (hgroup : cfg.DELETE_GROUP_RUNNERS = true) (hids : cfg.GROUP_IDS = []) :
    (cfg.DELETE_PERSONAL = false →
      (main NewClient cfg fuel).1 = some .fatal ∧ (main NewClient cfg fuel).2.calls = []) ∧
    (∀ gl, cfg.DELETE_PERSONAL = true → cfg.GITLAB_TOKEN ≠ "" →
      NewClient cfg.GITLAB_TOKEN = .ok gl →
      (main NewClient cfg fuel).2.calls =
        (runPersonalRunners gl cfg fuel (mainEntry cfg)).2.calls ∧
      ∀ e, (runPersonalRunners gl cfg fuel (mainEntry cfg)).1 = some (.returned e) →
        (main NewClient cfg fuel).1 = some .fatal) := by
  constructor
  · intro hp
    unfold main
    by_cases ht : cfg.GITLAB_TOKEN = ""
    · simp [ht, World.log]
    · simp only [ht, if_false]
      cases hc : NewClient cfg.GITLAB_TOKEN with
      | error e => simp [World.log]
      | ok gl => simp [hp, hgroup, hids, World.log]
  · intro gl hp ht hc
    have hmain : main NewClient cfg fuel =
        match runPersonalRunners gl cfg fuel (mainEntry cfg) with
        | (some (.returned _), w2) =>
          (some .fatal, w2.log .fatal
            "group runner deletion has been required, but no group ids has been set. Check GROUP_IDS var"
            none)
        | other => other := by
      unfold main
      simp only [ht, if_false, hc, hp, if_true, hgroup, hids, List.length_nil]
      rfl
    rw [hmain]
    rcases hrun : runPersonalRunners gl cfg fuel (mainEntry cfg) with ⟨_ | o, w2⟩
    · exact ⟨rfl, fun e he => by simp at he⟩
    · cases o with
      | returned e => exact ⟨by simp [World.log], fun _ _ => rfl⟩
      | panicked => exact ⟨rfl, fun e he => by simp at he⟩
      | fatal => exact ⟨rfl, fun e he => by simp at he⟩

/-- C9 amended, on concrete runs: without the personal pass no call is made; with it
the calls are those of the personal pass. -/
theorem main_no_group_ids_witness :
    ((⟨"token", 50, false, true, [], true⟩ : Config).DELETE_PERSONAL = false ∧
      (main (connect quietClient) ⟨"token", 50, false, true, [], true⟩ 1).1 = some .fatal ∧
      (main (connect quietClient) ⟨"token", 50, false, true, [], true⟩ 1).2.calls = []) ∧
    (noGroupIdsConfig.DELETE_PERSONAL = true ∧ noGroupIdsConfig.GITLAB_TOKEN ≠ "" ∧
      connect quietClient noGroupIdsConfig.GITLAB_TOKEN = .ok quietClient ∧
      (main (connect quietClient) noGroupIdsConfig 1).2.calls =
        (runPersonalRunners quietClient noGroupIdsConfig 1 (mainEntry noGroupIdsConfig)).2.calls) :=
  ⟨⟨rfl, (main_no_group_ids (connect quietClient) ⟨"token", 50, false, true, [], true⟩ 1
      rfl rfl).1 rfl⟩,
    rfl, by decide, rfl,
    ((main_no_group_ids (connect quietClient) noGroupIdsConfig 1 rfl rfl).2 quietClient rfl
      (by decide) rfl).1⟩

/-- C10 fails: with `DRY_RUN` enabled and a personal listing that always answers with
the same non-empty page, `runPersonalRunners` is still inside its loop after `n`
iterations, for every `n`: it has sent `n` identical list requests, no delete call, and
has logged the dry-run entry of every listed record `n` times. -/
theorem runPersonalRunners_dry_run_never_returns (gl : Client) (cfg : Config) (w : World)
    (rs : List Runner) (resp : Response) (hdry : cfg.DRY_RUN = true)
    (hlist : ∀ hist opt, gl.ListRunners hist opt = ⟨rs, some resp, none⟩)
    (hne : rs ≠ []) (hitems : resp.TotalItems ≠ 0) (n : Nat) :
    runPersonalRunners gl cfg n w =
      (none, ⟨w.listOptions,
        w.calls ++ List.replicate n (Call.ListRunners ⟨w.listOptions, none⟩),
        w.logs ++ (List.replicate n (rs.map dryRunEntry)).flatten⟩) := by
  induction n generalizing w with
  | zero => simp [runPersonalRunners]
  | succ n ih =>
    rw [runPersonalRunners]
    simp only [hlist, hitems, List.length_eq_zero, hne, or_self, if_false,
      deleteRunnersFromResults_dry gl cfg hdry, ih, World.call]
    simp [List.replicate_succ]

/-- C10, on the scenario of the claim: one offline, non-shared record, dry run; after
three iterations the loop is still running, with three list requests and three dry-run
log entries for the one record. -/
theorem runPersonalRunners_dry_run_never_returns_witness :
    (defaultConfig true).DRY_RUN = true ∧
    (∀ hist opt, unchangedClient.ListRunners hist opt =
      ⟨[mkRunner 1 false false "offline"], some ⟨1, 1⟩, none⟩) ∧
    runPersonalRunners unchangedClient (defaultConfig true) 3 startWorld =
      (none, ⟨⟨0, 50⟩,
        [Call.ListRunners ⟨⟨0, 50⟩, none⟩, Call.ListRunners ⟨⟨0, 50⟩, none⟩,
          Call.ListRunners ⟨⟨0, 50⟩, none⟩],
        [dryRunEntry (mkRunner 1 false false "offline"),
          dryRunEntry (mkRunner 1 false false "offline"),
          dryRunEntry (mkRunner 1 false false "offline")]⟩) :=
  ⟨rfl, fun _ _ => rfl,
    runPersonalRunners_dry_run_never_returns unchangedClient (defaultConfig true) startWorld
      [mkRunner 1 false false "offline"] ⟨1, 1⟩ rfl (fun _ _ => rfl) (by decide) (by decide) 3⟩

end Cleaner
